import Mathlib

/-!
# Verification of the ghex self-update subsystem

Shallow embedding of the `internal/update` package of the ghex repository:
semantic-version parsing/printing/comparison, SHA-256 checksum
calculation/verification, checksum-manifest parsing and lookup, platform
asset selection, the binary manager (backup / restore / replace), and the
`Updater.Update` / `Updater.CheckForUpdate` orchestration, together with
theorems settling the stated properties.

Conventions: Go byte slices are `List Nat` (each element < 256), Go `string`
is Lean `String` (Go compares strings bytewise; on valid UTF-8 this agrees
with Lean's code-point lexicographic order), Go `int` is `Int` with the
64-bit clamping of `strconv` made explicit, and fallible operations return
`Except` / `Option`.  Filesystem and network effects are passed explicitly
as environment records and state records.
-/

set_option maxHeartbeats 1600000
set_option maxRecDepth 10000

namespace Ghex

/-- Go `unicode.IsSpace` (the White_Space property), written on the
code-point value so that `omega` can reason about it. -/
def goIsSpace (c : Char) : Bool :=
  decide (c.toNat = 32 ∨ (9 ≤ c.toNat ∧ c.toNat ≤ 13) ∨ c.toNat = 0x85 ∨
    c.toNat = 0xa0 ∨ c.toNat = 0x1680 ∨ (0x2000 ≤ c.toNat ∧ c.toNat ≤ 0x200a) ∨
    c.toNat = 0x2028 ∨ c.toNat = 0x2029 ∨ c.toNat = 0x202f ∨ c.toNat = 0x205f ∨
    c.toNat = 0x3000)

/-- Go `strings.TrimSpace` on the character list of a string. -/
def goTrimSpace (l : List Char) : List Char :=
  ((l.dropWhile goIsSpace).reverse.dropWhile goIsSpace).reverse

/-- ASCII decimal digit test, matching `\d` of Go's RE2 (ASCII-only). -/
def isDigitC (c : Char) : Bool :=
  decide (48 ≤ c.toNat ∧ c.toNat ≤ 57)

/-- Value of a big-endian decimal digit string. -/
def digitsToNat (l : List Char) : Nat :=
  l.foldl (fun a c => 10 * a + (c.toNat - 48)) 0

/-- `math.MaxInt64`, the largest value of Go's `int` on the 64-bit
platforms this repository supports. -/
def maxInt64 : Nat := 9223372036854775807

/-- Go `strconv.Atoi` on the all-digit strings produced by the version
regex's `\d+` groups: the decimal value, clamped to `MaxInt64` (for inputs
out of range `ParseInt` returns the maximum magnitude integer together with
`ErrRange`; `ParseVersion` discards the error). -/
def goAtoi (l : List Char) : Int :=
  Int.ofNat (min (digitsToNat l) maxInt64)

/-- `Version` struct of `version.go`: Go `int` fields and the pre-release
identifier string. -/
structure Version where
  major : Int
  minor : Int
  patch : Int
  pre : String
deriving DecidableEq, Repr

/-- The anchored match `^v?(\d+)\.(\d+)\.(\d+)(?:-(.+))?$` of
`versionRegex` on an already-trimmed character list, with the group
conversions of `ParseVersion` (RE2: `\d` is ASCII, `.` excludes the
newline, `$` is end of text; `strconv.Atoi` errors are discarded). -/
def parseVersionList (t : List Char) : Option Version :=
  let t1 := if t.head? = some 'v' then t.tail else t
  let d1 := t1.takeWhile isDigitC
  let r1 := t1.dropWhile isDigitC
  if d1 = [] then none
  else if r1.head? = some '.' then
    let r2 := r1.tail
    let d2 := r2.takeWhile isDigitC
    let r3 := r2.dropWhile isDigitC
    if d2 = [] then none
    else if r3.head? = some '.' then
      let r4 := r3.tail
      let d3 := r4.takeWhile isDigitC
      let r5 := r4.dropWhile isDigitC
      if d3 = [] then none
      else if r5 = [] then some ⟨goAtoi d1, goAtoi d2, goAtoi d3, ""⟩
      else if r5.head? = some '-' ∧ r5.tail ≠ [] ∧ r5.tail.all (fun c => c ≠ '\n')
      then some ⟨goAtoi d1, goAtoi d2, goAtoi d3, String.mk r5.tail⟩
      else none
    else none
  else none

/-- `ParseVersion` of `version.go`: trim whitespace, then match the
version pattern.  `none` models the `ErrInvalidVersion` return. -/
def parseVersion (s : String) : Option Version :=
  parseVersionList (goTrimSpace s.data)

/-- Big-endian decimal digits of a natural number (auxiliary, fuelled so
that it is structurally recursive). -/
def natDecCharsAux : Nat → Nat → List Char → List Char
  | 0, _, acc => acc
  | fuel + 1, n, acc =>
    if n = 0 then acc
    else natDecCharsAux fuel (n / 10) (Char.ofNat (48 + n % 10) :: acc)

/-- Decimal representation of a natural number, as printed by Go's
`fmt.Sprintf("%d", ·)`. -/
def natDecChars (n : Nat) : List Char :=
  if n = 0 then ['0'] else natDecCharsAux (n + 1) n []

/-- Decimal representation of a Go `int`. -/
def intDecChars (i : Int) : List Char :=
  if i < 0 then '-' :: natDecChars (-i).toNat else natDecChars i.toNat

/-- `Version.String` of `version.go`: `MAJOR.MINOR.PATCH[-PRE]`, no
leading `v`. -/
def Version.vstring (v : Version) : String :=
  if v.pre ≠ ""
  then String.mk (intDecChars v.major ++ '.' ::
    (intDecChars v.minor ++ '.' :: (intDecChars v.patch ++ '-' :: v.pre.data)))
  else String.mk (intDecChars v.major ++ '.' ::
    (intDecChars v.minor ++ '.' :: intDecChars v.patch))

/-- Go's `<` on strings: bytewise lexicographic comparison, which on valid
UTF-8 agrees with this code-point lexicographic comparison. -/
def goStrLt : List Char → List Char → Bool
  | [], [] => false
  | [], _ :: _ => true
  | _ :: _, [] => false
  | a :: as, b :: bs =>
    if a.toNat < b.toNat then true
    else if b.toNat < a.toNat then false
    else goStrLt as bs

/-- `Version.Compare` of `version.go`: -1 / 0 / 1, numerically on
(major, minor, patch), then empty pre-release above non-empty, then
lexicographic string comparison of the pre-release identifiers. -/
def Version.compare (v other : Version) : Int :=
  if v.major < other.major then -1
  else if v.major > other.major then 1
  else if v.minor < other.minor then -1
  else if v.minor > other.minor then 1
  else if v.patch < other.patch then -1
  else if v.patch > other.patch then 1
  else if v.pre = "" ∧ other.pre ≠ "" then 1
  else if v.pre ≠ "" ∧ other.pre = "" then -1
  else if v.pre = other.pre then 0
  else if goStrLt v.pre.data other.pre.data then -1
  else 1

/-- `Version.IsNewerThan` of `version.go`. -/
def Version.isNewerThan (v other : Version) : Bool :=
  decide (Version.compare v other > 0)

/-- Strict order on pre-release identifiers implemented by the tail of
`Version.Compare`: a non-empty identifier ranks below the empty one, two
non-empty identifiers compare lexicographically (Lean's `String` order is
lexicographic by code point, which agrees with Go's bytewise comparison on
valid UTF-8). -/
def preLt (p q : String) : Prop :=
  (p ≠ "" ∧ q = "") ∨ (p ≠ "" ∧ q ≠ "" ∧ goStrLt p.data q.data = true)

/-- The strict "less than" relation decided by `Version.compare`:
lexicographic on (major, minor, patch, pre-release key). -/
def ltKey (a b : Version) : Prop :=
  a.major < b.major ∨ (a.major = b.major ∧ (a.minor < b.minor ∨ (a.minor = b.minor ∧
    (a.patch < b.patch ∨ (a.patch = b.patch ∧ preLt a.pre b.pre)))))

/-- `ChecksumEntry` of `platform.go`: a single line of a checksums
manifest. -/
structure ChecksumEntry where
  checksum : String
  filename : String
deriving DecidableEq, Repr

/-- Go `strings.HasSuffix s suffix`. -/
def goHasSuffix (s suffix : String) : Bool :=
  suffix.data.reverse.isPrefixOf s.data.reverse

/-- `FindChecksum` of `platform.go`: scan the entries in order and return
the first whose filename matches the query exactly or ends in
`"/" + query`; `("", false)` when none matches. -/
def findChecksum : List ChecksumEntry → String → String × Bool
  | [], _ => ("", false)
  | entry :: rest, filename =>
    if entry.filename = filename ∨ goHasSuffix entry.filename ("/" ++ filename) = true
    then (entry.checksum, true)
    else findChecksum rest filename

/-- Error taxonomy of the update package (`errors.go`), with the
structured payloads the wrapped `fmt.Errorf` messages carry and separate
constructors for the plain (non-sentinel) errors of `Replace`. -/
inductive UpdateError where
  | noUpdateAvailable
  | downloadFailed
  | checksumMismatch (expected actual : String)
  | permissionDenied
  | backupFailed
  | restoreFailed
  | noBackupAvailable
  | invalidVersion (s : String)
  | assetNotFound
  | networkError
  | extractFailed
  | checksumParseFailed
  | tempDirFailed
  | replaceRemoveFailed
  | replaceCopyFailed
  | replaceChmodFailed
deriving DecidableEq, Repr

instance exceptDecEq {ε α : Type} [DecidableEq ε] [DecidableEq α] :
    DecidableEq (Except ε α)
  | Except.ok x, Except.ok y =>
    if h : x = y then isTrue (by rw [h]) else isFalse (fun hc => h (by injection hc))
  | Except.ok _, Except.error _ => isFalse (fun h => Except.noConfusion h)
  | Except.error _, Except.ok _ => isFalse (fun h => Except.noConfusion h)
  | Except.error e1, Except.error e2 =>
    if h : e1 = e2 then isTrue (by rw [h]) else isFalse (fun hc => h (by injection hc))

/-- 32-bit modular addition. -/
def add32 (a b : Nat) : Nat := (a + b) % 4294967296

/-- Rotate a 32-bit word right by `n`. -/
def rotr32 (n x : Nat) : Nat := x / 2 ^ n + x % 2 ^ n * 2 ^ (32 - n)

/-- Logical right shift of a 32-bit word. -/
def shr32 (n x : Nat) : Nat := x / 2 ^ n

/-- Bitwise complement of a 32-bit word. -/
def not32 (x : Nat) : Nat := 4294967295 - x

def bsig0 (x : Nat) : Nat := rotr32 2 x ^^^ rotr32 13 x ^^^ rotr32 22 x

def bsig1 (x : Nat) : Nat := rotr32 6 x ^^^ rotr32 11 x ^^^ rotr32 25 x

def ssig0 (x : Nat) : Nat := rotr32 7 x ^^^ rotr32 18 x ^^^ shr32 3 x

def ssig1 (x : Nat) : Nat := rotr32 17 x ^^^ rotr32 19 x ^^^ shr32 10 x

def ch32 (x y z : Nat) : Nat := (x &&& y) ^^^ (not32 x &&& z)

def maj32 (x y z : Nat) : Nat := (x &&& y) ^^^ (x &&& z) ^^^ (y &&& z)

/-- The SHA-256 round constants (FIPS 180-4), in decimal. -/
def sha256K : List Nat :=
  [1116352408, 1899447441, 3049323471, 3921009573, 961987163,
   1508970993, 2453635748, 2870763221, 3624381080, 310598401,
   607225278, 1426881987, 1925078388, 2162078206, 2614888103,
   3248222580, 3835390401, 4022224774, 264347078, 604807628,
   770255983, 1249150122, 1555081692, 1996064986, 2554220882,
   2821834349, 2952996808, 3210313671, 3336571891, 3584528711,
   113926993, 338241895, 666307205, 773529912, 1294757372,
   1396182291, 1695183700, 1986661051, 2177026350, 2456956037,
   2730485921, 2820302411, 3259730800, 3345764771, 3516065817,
   3600352804, 4094571909, 275423344, 430227734, 506948616,
   659060556, 883997877, 958139571, 1322822218, 1537002063,
   1747873779, 1955562222, 2024104815, 2227730452, 2361852424,
   2428436474, 2756734187, 3204031479, 3329325298]

/-- The SHA-256 initial hash value (FIPS 180-4), in decimal. -/
def sha256H0 : List Nat :=
  [1779033703, 3144134277, 1013904242, 2773480762,
   1359893119, 2600822924, 528734635, 1541459225]

/-- Big-endian encoding of a 64-bit value into 8 bytes. -/
def be64 (n : Nat) : List Nat :=
  [n / 2 ^ 56 % 256, n / 2 ^ 48 % 256, n / 2 ^ 40 % 256, n / 2 ^ 32 % 256,
   n / 2 ^ 24 % 256, n / 2 ^ 16 % 256, n / 2 ^ 8 % 256, n % 256]

/-- SHA-256 padding: append 0x80, zeros to 56 mod 64, and the bit length
as a 64-bit big-endian value. -/
def sha256Pad (msg : List Nat) : List Nat :=
  let len := msg.length
  let k := (120 - (len + 1) % 64) % 64
  msg ++ 0x80 :: (List.replicate k 0 ++ be64 (8 * len % 2 ^ 64))

/-- The 16 big-endian message words of a 64-byte block. -/
def blockWords (block : List Nat) : List Nat :=
  (List.range 16).map fun i =>
    ((block.getD (4 * i) 0 * 256 + block.getD (4 * i + 1) 0) * 256 +
      block.getD (4 * i + 2) 0) * 256 + block.getD (4 * i + 3) 0

/-- Extend the 16 message words to the 64-entry message schedule. -/
def extendW (w : List Nat) : List Nat :=
  (List.range 48).foldl
    (fun w _ =>
      w ++ [add32 (add32 (ssig1 (w.getD (w.length - 2) 0)) (w.getD (w.length - 7) 0))
        (add32 (ssig0 (w.getD (w.length - 15) 0)) (w.getD (w.length - 16) 0))])
    w

/-- One SHA-256 compression round on the working state `[a,b,c,d,e,f,g,h]`
with round constant and schedule word `kw`. -/
def sha256Round (st : List Nat) (kw : Nat × Nat) : List Nat :=
  match st with
  | [a, b, c, d, e, f, g, h] =>
    let t1 := add32 (add32 (add32 (add32 h (bsig1 e)) (ch32 e f g)) kw.1) kw.2
    let t2 := add32 (bsig0 a) (maj32 a b c)
    [add32 t1 t2, a, b, c, add32 d t1, e, f, g]
  | other => other

/-- Compress one 64-byte block into the hash state. -/
def sha256Compress (h : List Nat) (block : List Nat) : List Nat :=
  let w := extendW (blockWords block)
  let st := (List.zip sha256K w).foldl sha256Round h
  List.zipWith add32 h st

/-- Fold the compression function over consecutive 64-byte blocks
(fuelled so that the recursion is structural). -/
def sha256Blocks : Nat → List Nat → List Nat → List Nat
  | 0, _, h => h
  | fuel + 1, msg, h =>
    if msg = [] then h
    else sha256Blocks fuel (msg.drop 64) (sha256Compress h (msg.take 64))

/-- SHA-256 of a byte sequence, as computed by Go's `crypto/sha256`:
32 digest bytes. -/
def sha256 (msg : List Nat) : List Nat :=
  let padded := sha256Pad msg
  let hfinal := sha256Blocks padded.length padded sha256H0
  hfinal.foldr
    (fun w acc => w / 2 ^ 24 % 256 :: w / 2 ^ 16 % 256 :: w / 2 ^ 8 % 256 :: w % 256 :: acc)
    []

/-- One lowercase hexadecimal digit, as emitted by Go's
`encoding/hex.EncodeToString`. -/
def hexDigit (n : Nat) : Char :=
  if n < 10 then Char.ofNat (48 + n) else Char.ofNat (87 + n)

/-- Lowercase hexadecimal encoding of a byte sequence
(`hex.EncodeToString`). -/
def hexEncode (bytes : List Nat) : String :=
  String.mk (bytes.foldr (fun b acc => hexDigit (b / 16 % 16) :: hexDigit (b % 16) :: acc) [])

/-- `CalculateChecksum` of `platform.go` on the content bytes of a
readable file: the lowercase SHA-256 hex digest. -/
def calculateChecksumBytes (content : List Nat) : String :=
  hexEncode (sha256 content)

/-- Go `strings.ToLower`, restricted to its ASCII case mapping.  This
agrees with Go on every comparison against a hexadecimal digest: no
non-ASCII rune's Unicode lowercase lands in the hex alphabet
(`0-9a-f`), so a string containing non-ASCII runes is unequal to a digest
under either mapping. -/
def goToLowerAscii (s : String) : String :=
  String.mk (s.data.map fun c =>
    if 65 ≤ c.toNat ∧ c.toNat ≤ 90 then Char.ofNat (c.toNat + 32) else c)

/-- Go `strings.TrimSpace` on strings. -/
def goTrimSpaceString (s : String) : String :=
  String.mk (goTrimSpace s.data)

/-- `VerifyChecksum` of `platform.go` on the content bytes of a readable
file: compute the digest, normalise both sides exactly as the source does
(`ToLower(TrimSpace(expected))` and `ToLower(actual)`), and fail with
`ErrChecksumMismatch` carrying the two hex strings when they differ. -/
def verifyChecksumBytes (content : List Nat) (expectedChecksum : String) :
    Except UpdateError Unit :=
  let actualChecksum := calculateChecksumBytes content
  let expected := goToLowerAscii (goTrimSpaceString expectedChecksum)
  let actual := goToLowerAscii actualChecksum
  if actual = expected then Except.ok ()
  else Except.error (UpdateError.checksumMismatch expected actual)

/-- Split a character list on newlines; like Go's
`strings.Split(s, "\n")`, the result always has one segment more than
the number of newlines. -/
def splitOnNl : List Char → List (List Char)
  | [] => [[]]
  | c :: rest =>
    let r := splitOnNl rest
    if c = '\n' then [] :: r
    else match r with
      | [] => [[c]]
      | h :: t => (c :: h) :: t

/-- Scanner line splitting of Go's `bufio.Scanner` with `ScanLines`:
split on `'\n'`, no final empty token for a trailing newline, one
trailing `'\r'` dropped per line. -/
def goScanLines (s : String) : List String :=
  let raw := (splitOnNl s.data).map String.mk
  let toks := if s = "" then []
    else if s.data.getLast? = some '\n' then raw.dropLast else raw
  toks.map fun line =>
    if line.data.getLast? = some '\r' then String.mk line.data.dropLast else line

/-- Go `strings.Fields` on a character list: maximal runs of
non-whitespace characters (fuelled so the recursion is structural). -/
def goFieldsAux : Nat → List Char → List (List Char)
  | 0, _ => []
  | fuel + 1, l =>
    let l1 := l.dropWhile goIsSpace
    if l1 = [] then []
    else l1.takeWhile (fun c => !goIsSpace c) ::
      goFieldsAux fuel (l1.dropWhile (fun c => !goIsSpace c))

/-- Go `strings.Fields`. -/
def goFields (s : String) : List String :=
  (goFieldsAux (s.data.length + 1) s.data).map String.mk

/-- `ParseChecksumFile` of `platform.go`: scan the text line by line,
skip blank and `#` lines and lines with fewer than two fields, and build
an entry from the lowercased first field and the last field.  The error
models `bufio.Scanner`'s `ErrTooLong` (a line reaching the 64 KiB token
limit), the only error the scanner of a string can report; it discards
all entries. -/
def parseChecksumFile (content : String) : Except UpdateError (List ChecksumEntry) :=
  if (splitOnNl content.data).any (fun l => 65536 ≤ (String.mk l).utf8ByteSize) then
    Except.error UpdateError.checksumParseFailed
  else
    Except.ok ((goScanLines content).filterMap fun rawLine =>
      let line := goTrimSpaceString rawLine
      if line = "" ∨ line.data.head? = some '#' then none
      else
        let parts := goFields line
        if parts.length < 2 then none
        else some ⟨goToLowerAscii (parts.headD ("")), (parts.getLast?).getD ("")⟩)

/-- `Asset` of the release client: a downloadable release asset. -/
structure Asset where
  name : String
  downloadURL : String
  size : Int
  contentType : String
deriving DecidableEq, Repr

/-- `ReleaseInfo` of the release client.  The timestamp is an opaque
tick. -/
structure ReleaseInfo where
  version : String
  tagName : String
  name : String
  body : String
  publishedAt : Nat
  htmlURL : String
  assets : List Asset
deriving DecidableEq, Repr

/-- `GetAssetName` of `platform.go`. -/
def getAssetName (osName arch : String) : String :=
  "ghex-" ++ osName ++ "-" ++ arch ++ (if osName = "windows" then ".zip" else ".tar.gz")

/-- `SelectAssetForPlatform` of `platform.go`: exact name match first,
then the first asset matching one of the alternative naming prefixes. -/
def selectAssetForPlatform (release : ReleaseInfo) (osName arch : String) :
    Except UpdateError Asset :=
  let expectedName := getAssetName osName arch
  match release.assets.find? (fun a => a.name = expectedName) with
  | some a => Except.ok a
  | none =>
    let alternatives := ["ghex_" ++ osName ++ "_" ++ arch, "ghex-" ++ osName ++ "-" ++ arch]
    match release.assets.find?
        (fun a => alternatives.any fun alt => alt.data.isPrefixOf a.name.data) with
    | some a => Except.ok a
    | none => Except.error UpdateError.assetNotFound

/-- On-disk state owned by the `BinaryManager`: the bytes at the binary
path and at the backup path (`none` = file absent). -/
structure FsState where
  binary : Option (List Nat)
  backup : Option (List Nat)
deriving DecidableEq, Repr

/-- `BinaryManager.HasBackup` of `binary.go`: a pure existence check. -/
def hasBackup (st : FsState) : Bool := st.backup.isSome

/-- Outcomes of the individual I/O system calls the `BinaryManager`
performs, supplied by the environment (`false` = the call fails). -/
structure IOEnv where
  mkdirBackupOk : Bool
  copyToBackupOk : Bool
  removeBinaryOk : Bool
  copyToBinaryOk : Bool
  chmodBinaryOk : Bool
  restoreCopyOk : Bool
  restoreChmodOk : Bool
deriving DecidableEq, Repr

/-- `BinaryManager.Backup` of `binary.go`: `MkdirAll` on the backup
directory, then copy the binary bytes over the backup path; any failure
is `ErrBackupFailed` (a failed copy is modelled as leaving the previous
backup state). -/
def backup (io : IOEnv) (st : FsState) : Except UpdateError Unit × FsState :=
  if io.mkdirBackupOk = false then (Except.error UpdateError.backupFailed, st)
  else match st.binary with
    | none => (Except.error UpdateError.backupFailed, st)
    | some bytes =>
      if io.copyToBackupOk then (Except.ok (), { st with backup := some bytes })
      else (Except.error UpdateError.backupFailed, st)

/-- `BinaryManager.Restore` of `binary.go`: `ErrNoBackupAvailable` when
no backup exists, else copy the backup bytes over the binary path and
re-apply the executable bit; either I/O failure is `ErrRestoreFailed`. -/
def restore (io : IOEnv) (st : FsState) : Except UpdateError Unit × FsState :=
  match st.backup with
  | none => (Except.error UpdateError.noBackupAvailable, st)
  | some bytes =>
    if io.restoreCopyOk = false then (Except.error UpdateError.restoreFailed, st)
    else if io.restoreChmodOk = false then
      (Except.error UpdateError.restoreFailed, { st with binary := some bytes })
    else (Except.ok (), { st with binary := some bytes })

/-- `BinaryManager.replaceUnix` of `binary.go`: remove the running
binary (fails if it is absent or the call fails), copy the new bytes into
place (a failed copy leaves the path missing-or-partial, modelled as
absent), then set the executable bit. -/
def replaceUnix (io : IOEnv) (newBytes : List Nat) (st : FsState) :
    Except UpdateError Unit × FsState :=
  if st.binary.isNone ∨ io.removeBinaryOk = false then
    (Except.error UpdateError.replaceRemoveFailed, st)
  else if io.copyToBinaryOk = false then
    (Except.error UpdateError.replaceCopyFailed, { st with binary := none })
  else if io.chmodBinaryOk = false then
    (Except.error UpdateError.replaceChmodFailed, { st with binary := some newBytes })
  else (Except.ok (), { st with binary := some newBytes })

/-- The environment of one `Updater.Update` attempt: the platform, the
outcomes of the network and temp-directory effects, the extraction
outcome as a function of the downloaded archive bytes, and the I/O
outcomes of the binary manager. -/
structure UpdateEnv where
  osName : String
  arch : String
  writePermOk : Bool
  tempDirOk : Bool
  download : Except UpdateError (List Nat)
  checksums : Except UpdateError String
  extract : List Nat → Except UpdateError (List Nat)
  io : IOEnv

/-- The `BinaryManager` operations `Update` attempts, in order. -/
inductive BinOp where
  | backupOp
  | replaceOp
  | restoreOp
deriving DecidableEq, Repr

/-- The best-effort checksum block of `Updater.Update` (`update.go`
lines 96-107): a checksum-download error, an empty manifest, a manifest
parse error, or a missing entry for the asset all skip verification
silently; only an actually-found entry is verified. -/
def checksumStep (env : UpdateEnv) (assetName : String) (archiveBytes : List Nat) :
    Except UpdateError Unit :=
  match env.checksums with
  | Except.error _ => Except.ok ()
  | Except.ok content =>
    if content = "" then Except.ok ()
    else match parseChecksumFile content with
      | Except.error _ => Except.ok ()
      | Except.ok entries =>
        match findChecksum entries assetName with
        | (expected, true) => verifyChecksumBytes archiveBytes expected
        | (_, false) => Except.ok ()

/-- `Updater.Update` of `update.go`: check write permission, select the
asset, create the temp directory, download, best-effort checksum
verification, extract, back up, replace; on a replace failure run one
`Restore()` whose error is discarded, and return the replace error.  The
result carries the final on-disk state and the list of binary-manager
operations attempted. -/
def update (env : UpdateEnv) (release : ReleaseInfo) (st : FsState) :
    Except UpdateError Unit × FsState × List BinOp :=
  if env.writePermOk = false then (Except.error UpdateError.permissionDenied, st, [])
  else match selectAssetForPlatform release env.osName env.arch with
  | Except.error e => (Except.error e, st, [])
  | Except.ok asset =>
    if env.tempDirOk = false then (Except.error UpdateError.tempDirFailed, st, [])
    else match env.download with
    | Except.error e => (Except.error e, st, [])
    | Except.ok archiveBytes =>
      match checksumStep env asset.name archiveBytes with
      | Except.error e => (Except.error e, st, [])
      | Except.ok _ =>
        match env.extract archiveBytes with
        | Except.error e => (Except.error e, st, [])
        | Except.ok newBytes =>
          match backup env.io st with
          | (Except.error e, st1) => (Except.error e, st1, [BinOp.backupOp])
          | (Except.ok _, st1) =>
            match replaceUnix env.io newBytes st1 with
            | (Except.ok _, st2) =>
              (Except.ok (), st2, [BinOp.backupOp, BinOp.replaceOp])
            | (Except.error e, st2) =>
              (Except.error e, (restore env.io st2).2,
                [BinOp.backupOp, BinOp.replaceOp, BinOp.restoreOp])

/-- `Updater.CheckForUpdate` of `update.go`: fetch the latest release,
parse the current version and the release tag, and compare; mirrors the
Go triple `(release, hasUpdate, err)`. -/
def checkForUpdate (latest : Except UpdateError ReleaseInfo) (currentVersion : String) :
    Option ReleaseInfo × Bool × Option UpdateError :=
  match latest with
  | Except.error e => (none, false, some e)
  | Except.ok release =>
    match parseVersion currentVersion with
    | none => (some release, false, some (UpdateError.invalidVersion currentVersion))
    | some currentVer =>
      match parseVersion release.tagName with
      | none => (some release, false, some (UpdateError.invalidVersion release.tagName))
      | some latestVer =>
        (some release, Version.isNewerThan latestVer currentVer, none)

lemma goStrLt_self : ∀ l, goStrLt l l = false := by
  intro l
  induction l with
  | nil => rfl
  | cons a as ih => simp [goStrLt, ih]

lemma goStrLt_trans : ∀ {a b c : List Char},
    goStrLt a b = true → goStrLt b c = true → goStrLt a c = true := by
  intro a
  induction a with
  | nil =>
    intro b c hab hbc
    cases b with
    | nil => exact absurd hab (by simp [goStrLt])
    | cons y ys =>
      cases c with
      | nil => exact absurd hbc (by simp [goStrLt])
      | cons z zs => simp [goStrLt]
  | cons x xs ih =>
    intro b c hab hbc
    cases b with
    | nil => exact absurd hab (by simp [goStrLt])
    | cons y ys =>
      cases c with
      | nil => exact absurd hbc (by simp [goStrLt])
      | cons z zs =>
        simp only [goStrLt] at hab hbc ⊢
        split_ifs at hab hbc ⊢ with h1 h2 h3 h4 h5 h6 <;>
          first
            | rfl
            | omega
            | exact ih hab hbc

lemma compare_vals (a b : Version) :
    Version.compare a b = -1 ∨ Version.compare a b = 0 ∨ Version.compare a b = 1 := by
  unfold Version.compare
  split_ifs <;>
    first
      | exact Or.inl rfl
      | exact Or.inr (Or.inl rfl)
      | exact Or.inr (Or.inr rfl)

lemma compare_eq_neg_one_iff (a b : Version) :
    Version.compare a b = -1 ↔ ltKey a b := by
  unfold Version.compare ltKey
  split_ifs with h1 h2 h3 h4 h5 h6 h7 h8 h9 h10
  · exact iff_of_true rfl (Or.inl h1)
  · refine iff_of_false (by decide) ?_
    rintro (h | ⟨he, _⟩) <;> omega
  · exact iff_of_true rfl (Or.inr ⟨by omega, Or.inl h3⟩)
  · refine iff_of_false (by decide) ?_
    rintro (h | ⟨he, h | ⟨he2, _⟩⟩) <;> omega
  · exact iff_of_true rfl (Or.inr ⟨by omega, Or.inr ⟨by omega, Or.inl h5⟩⟩)
  · refine iff_of_false (by decide) ?_
    rintro (h | ⟨he, h | ⟨he2, h | ⟨he3, _⟩⟩⟩) <;> omega
  · refine iff_of_false (by decide) ?_
    rintro (h | ⟨he, h | ⟨he2, h | ⟨he3, hp⟩⟩⟩)
    · omega
    · omega
    · omega
    · rcases hp with ⟨ha, _⟩ | ⟨ha, _, _⟩ <;> exact ha h7.1
  · exact iff_of_true rfl
      (Or.inr ⟨by omega, Or.inr ⟨by omega, Or.inr ⟨by omega, Or.inl h8⟩⟩⟩)
  · refine iff_of_false (by decide) ?_
    rintro (h | ⟨he, h | ⟨he2, h | ⟨he3, hp⟩⟩⟩)
    · omega
    · omega
    · omega
    · rcases hp with ⟨ha, hb⟩ | ⟨_, _, hlt⟩
      · exact ha (h9.trans hb)
      · rw [h9, goStrLt_self] at hlt
        exact absurd hlt (by decide)
  · refine iff_of_true rfl
      (Or.inr ⟨by omega, Or.inr ⟨by omega, Or.inr ⟨by omega, Or.inr ⟨?_, ?_, h10⟩⟩⟩⟩)
    · intro hae
      have hbe : b.pre = "" := by
        by_contra hbe
        exact h7 ⟨hae, hbe⟩
      exact h9 (hae.trans hbe.symm)
    · intro hbe
      by_cases hae : a.pre = ""
      · exact h9 (hae.trans hbe.symm)
      · exact h8 ⟨hae, hbe⟩
  · refine iff_of_false (by decide) ?_
    rintro (h | ⟨he, h | ⟨he2, h | ⟨he3, hp⟩⟩⟩)
    · omega
    · omega
    · omega
    · rcases hp with ⟨ha, hb⟩ | ⟨ha, hb, hlt⟩
      · exact h8 ⟨ha, hb⟩
      · exact h10 hlt

lemma compare_eq_zero_iff (a b : Version) :
    Version.compare a b = 0 ↔
      (a.major = b.major ∧ a.minor = b.minor ∧ a.patch = b.patch ∧ a.pre = b.pre) := by
  unfold Version.compare
  split_ifs with h1 h2 h3 h4 h5 h6 h7 h8 h9 h10
  · refine iff_of_false (by decide) ?_
    rintro ⟨h, _, _, _⟩; omega
  · refine iff_of_false (by decide) ?_
    rintro ⟨h, _, _, _⟩; omega
  · refine iff_of_false (by decide) ?_
    rintro ⟨_, h, _, _⟩; omega
  · refine iff_of_false (by decide) ?_
    rintro ⟨_, h, _, _⟩; omega
  · refine iff_of_false (by decide) ?_
    rintro ⟨_, _, h, _⟩; omega
  · refine iff_of_false (by decide) ?_
    rintro ⟨_, _, h, _⟩; omega
  · refine iff_of_false (by decide) ?_
    rintro ⟨_, _, _, hp⟩
    exact h7.2 (hp.symm.trans h7.1)
  · refine iff_of_false (by decide) ?_
    rintro ⟨_, _, _, hp⟩
    exact h8.1 (hp.trans h8.2)
  · exact iff_of_true rfl ⟨by omega, by omega, by omega, h9⟩
  · refine iff_of_false (by decide) ?_
    rintro ⟨_, _, _, hp⟩
    exact h9 hp
  · refine iff_of_false (by decide) ?_
    rintro ⟨_, _, _, hp⟩
    exact h9 hp

lemma char_eq_of_toNat_eq {c d : Char} (h : c.toNat = d.toNat) : c = d :=
  Char.ext (UInt32.ext h)

lemma goStrLt_total : ∀ a b : List Char, a = b ∨ goStrLt a b = true ∨ goStrLt b a = true := by
  intro a
  induction a with
  | nil =>
    intro b
    cases b with
    | nil => exact Or.inl rfl
    | cons y ys => exact Or.inr (Or.inl (by simp [goStrLt]))
  | cons x xs ih =>
    intro b
    cases b with
    | nil => exact Or.inr (Or.inr (by simp [goStrLt]))
    | cons y ys =>
      by_cases h1 : x.toNat < y.toNat
      · exact Or.inr (Or.inl (by simp [goStrLt, h1]))
      by_cases h2 : y.toNat < x.toNat
      · exact Or.inr (Or.inr (by simp [goStrLt, h2]))
      have hxy : x = y := char_eq_of_toNat_eq (by omega)
      subst hxy
      rcases ih ys with rfl | h | h
      · exact Or.inl rfl
      · exact Or.inr (Or.inl (by simpa [goStrLt] using h))
      · exact Or.inr (Or.inr (by simpa [goStrLt] using h))

lemma compare_eq_one_iff (a b : Version) :
    Version.compare a b = 1 ↔ ltKey b a := by
  unfold Version.compare ltKey
  split_ifs with h1 h2 h3 h4 h5 h6 h7 h8 h9 h10
  · refine iff_of_false (by decide) ?_
    rintro (h | ⟨he, _⟩) <;> omega
  · exact iff_of_true rfl (Or.inl h2)
  · refine iff_of_false (by decide) ?_
    rintro (h | ⟨he, h | ⟨he2, _⟩⟩) <;> omega
  · exact iff_of_true rfl (Or.inr ⟨by omega, Or.inl h4⟩)
  · refine iff_of_false (by decide) ?_
    rintro (h | ⟨he, h | ⟨he2, h | ⟨he3, _⟩⟩⟩) <;> omega
  · exact iff_of_true rfl (Or.inr ⟨by omega, Or.inr ⟨by omega, Or.inl h6⟩⟩)
  · exact iff_of_true rfl
      (Or.inr ⟨by omega, Or.inr ⟨by omega, Or.inr ⟨by omega, Or.inl ⟨h7.2, h7.1⟩⟩⟩⟩)
  · refine iff_of_false (by decide) ?_
    rintro (h | ⟨he, h | ⟨he2, h | ⟨he3, hp⟩⟩⟩)
    · omega
    · omega
    · omega
    · rcases hp with ⟨hb, _⟩ | ⟨hb, _, _⟩ <;> exact hb h8.2
  · refine iff_of_false (by decide) ?_
    rintro (h | ⟨he, h | ⟨he2, h | ⟨he3, hp⟩⟩⟩)
    · omega
    · omega
    · omega
    · rcases hp with ⟨hb, ha⟩ | ⟨_, _, hlt⟩
      · exact hb (h9.symm.trans ha)
      · rw [← h9, goStrLt_self] at hlt
        exact absurd hlt (by decide)
  · refine iff_of_false (by decide) ?_
    rintro (h | ⟨he, h | ⟨he2, h | ⟨he3, hp⟩⟩⟩)
    · omega
    · omega
    · omega
    · have hane : a.pre ≠ "" := by
        intro hae
        have hbe : b.pre = "" := by
          by_contra hbe
          exact h7 ⟨hae, hbe⟩
        exact h9 (hae.trans hbe.symm)
      rcases hp with ⟨_, ha⟩ | ⟨_, _, hlt⟩
      · exact hane ha
      · have := goStrLt_trans hlt h10
        rw [goStrLt_self] at this
        exact absurd this (by decide)
  · refine iff_of_true rfl
      (Or.inr ⟨by omega, Or.inr ⟨by omega, Or.inr ⟨by omega, Or.inr ⟨?_, ?_, ?_⟩⟩⟩⟩)
    case _ =>
      intro hbe
      by_cases hae : a.pre = ""
      · exact h9 (hae.trans hbe.symm)
      · exact h8 ⟨hae, hbe⟩
    case _ =>
      intro hae
      have hbe : b.pre = "" := by
        by_contra hbe
        exact h7 ⟨hae, hbe⟩
      exact h9 (hae.trans hbe.symm)
    case _ =>
      rcases goStrLt_total a.pre.data b.pre.data with heq | h | h
      · exact absurd (String.ext heq) h9
      · exact absurd h h10
      · exact h

lemma isNewerThan_iff (x y : Version) :
    Version.isNewerThan x y = true ↔ ltKey y x := by
  unfold Version.isNewerThan
  rw [decide_eq_true_eq]
  constructor
  · intro h
    have h1 : Version.compare x y = 1 := by
      rcases compare_vals x y with h' | h' | h' <;> omega
    exact (compare_eq_one_iff x y).1 h1
  · intro h
    have h1 := (compare_eq_one_iff x y).2 h
    omega

lemma preLt_trans {p q r : String} (h1 : preLt p q) (h2 : preLt q r) : preLt p r := by
  rcases h1 with ⟨hp, hq⟩ | ⟨hp, hq, hlt⟩
  · rcases h2 with ⟨hq2, _⟩ | ⟨hq2, _, _⟩ <;> exact absurd hq hq2
  · rcases h2 with ⟨_, hr⟩ | ⟨_, hr, hlt2⟩
    · exact Or.inl ⟨hp, hr⟩
    · exact Or.inr ⟨hp, hr, goStrLt_trans hlt hlt2⟩

lemma ltKey_trans {a b c : Version} (h1 : ltKey a b) (h2 : ltKey b c) : ltKey a c := by
  rcases h1 with h | ⟨e1, h | ⟨e2, h | ⟨e3, hp⟩⟩⟩ <;>
    rcases h2 with g | ⟨f1, g | ⟨f2, g | ⟨f3, gp⟩⟩⟩ <;>
    first
      | exact Or.inl (by omega)
      | exact Or.inr ⟨by omega, Or.inl (by omega)⟩
      | exact Or.inr ⟨by omega, Or.inr ⟨by omega, Or.inl (by omega)⟩⟩
      | exact Or.inr ⟨by omega, Or.inr ⟨by omega, Or.inr ⟨by omega, preLt_trans hp gp⟩⟩⟩

/-- Claim C3: `Version.Compare` is reflexive and transitive over all parsed
versions: `Compare(V, V) = 0` for every version `V` obtained from
`ParseVersion`, and whenever `Compare(A, B) < 0` and `Compare(B, C) < 0`
for parsed versions, also `Compare(A, C) < 0`. -/
theorem version_compare_refl_trans :
    (∀ s v, parseVersion s = some v → Version.compare v v = 0) ∧
    (∀ sa sb sc a b c, parseVersion sa = some a → parseVersion sb = some b →
      parseVersion sc = some c → Version.compare a b < 0 → Version.compare b c < 0 →
      Version.compare a c < 0) := by
  constructor
  · intro s v _
    exact (compare_eq_zero_iff v v).2 ⟨rfl, rfl, rfl, rfl⟩
  · intro sa sb sc a b c _ _ _ hab hbc
    have h1 : Version.compare a b = -1 := by
      rcases compare_vals a b with h | h | h <;> omega
    have h2 : Version.compare b c = -1 := by
      rcases compare_vals b c with h | h | h <;> omega
    have h3 := (compare_eq_neg_one_iff a c).2
      (ltKey_trans ((compare_eq_neg_one_iff a b).1 h1) ((compare_eq_neg_one_iff b c).1 h2))
    omega

/-- Witness for C3 at the parsed versions 1.0.0, 1.1.0 and 2.0.0. -/
theorem version_compare_refl_trans_witness :
    Version.compare ⟨1, 0, 0, ""⟩ ⟨1, 0, 0, ""⟩ = 0 ∧
    Version.compare ⟨1, 0, 0, ""⟩ ⟨2, 0, 0, ""⟩ < 0 :=
  ⟨version_compare_refl_trans.1 ("1.0.0") ⟨1, 0, 0, ""⟩ (by decide),
   version_compare_refl_trans.2 ("1.0.0") ("1.1.0") ("2.0.0")
     ⟨1, 0, 0, ""⟩ ⟨1, 1, 0, ""⟩ ⟨2, 0, 0, ""⟩
     (by decide) (by decide) (by decide) (by decide) (by decide)⟩

lemma takeWhile_append_cons {α : Type} (p : α → Bool) (xs : List α) (y : α) (ys : List α)
    (hall : ∀ c ∈ xs, p c = true) (hy : p y = false) :
    (xs ++ y :: ys).takeWhile p = xs ∧ (xs ++ y :: ys).dropWhile p = y :: ys := by
  induction xs with
  | nil => simp [List.takeWhile_cons, List.dropWhile_cons, hy]
  | cons a t ih =>
    have ha : p a = true := hall a (List.mem_cons_self a t)
    have ht := ih (fun c hc => hall c (List.mem_cons_of_mem a hc))
    simp [List.takeWhile_cons, List.dropWhile_cons, ha, ht.1, ht.2]

lemma takeWhile_all {α : Type} (p : α → Bool) (xs : List α)
    (hall : ∀ c ∈ xs, p c = true) :
    xs.takeWhile p = xs ∧ xs.dropWhile p = [] := by
  induction xs with
  | nil => simp
  | cons a t ih =>
    have ha : p a = true := hall a (List.mem_cons_self a t)
    have ht := ih (fun c hc => hall c (List.mem_cons_of_mem a hc))
    simp [List.takeWhile_cons, List.dropWhile_cons, ha, ht.1, ht.2]

lemma head?_dropWhile_false {α : Type} (p : α → Bool) (l : List α) :
    ∀ c, (l.dropWhile p).head? = some c → p c = false := by
  induction l with
  | nil => intro c h; simp at h
  | cons a t ih =>
    intro c h
    rw [List.dropWhile_cons] at h
    by_cases ha : p a = true
    · rw [if_pos ha] at h
      exact ih c h
    · rw [if_neg ha] at h
      have hac : a = c := by simpa using h
      subst hac
      simp only [Bool.not_eq_true] at ha
      exact ha

lemma getLast?_of_suffix {α : Type} {l₁ l₂ : List α} (h : l₁ <:+ l₂) (hne : l₁ ≠ []) :
    l₂.getLast? = l₁.getLast? := by
  obtain ⟨pfx, rfl⟩ := h
  rw [List.getLast?_append]
  cases hl : l₁.getLast? with
  | none =>
    exact absurd (by simpa using hl) hne
  | some x => rfl

lemma goTrimSpace_eq_self {l : List Char}
    (hhead : ∀ c, l.head? = some c → goIsSpace c = false)
    (hlast : ∀ c, l.getLast? = some c → goIsSpace c = false) :
    goTrimSpace l = l := by
  unfold goTrimSpace
  have h1 : l.dropWhile goIsSpace = l := by
    cases l with
    | nil => rfl
    | cons a t =>
      have := hhead a rfl
      simp [List.dropWhile_cons, this]
  rw [h1]
  have h2 : l.reverse.dropWhile goIsSpace = l.reverse := by
    cases hr : l.reverse with
    | nil => rfl
    | cons a t =>
      have ha : l.getLast? = some a := by
        rw [List.getLast?_eq_head?_reverse, hr]
        rfl
      have := hlast a ha
      simp [List.dropWhile_cons, this]
  rw [h2, List.reverse_reverse]

lemma goTrimSpace_getLast? (l : List Char) :
    ∀ c, (goTrimSpace l).getLast? = some c → goIsSpace c = false := by
  intro c h
  unfold goTrimSpace at h
  rw [List.getLast?_reverse] at h
  exact head?_dropWhile_false _ _ c h

lemma isDigitC_not_space {c : Char} (h : isDigitC c = true) : goIsSpace c = false := by
  simp only [isDigitC, decide_eq_true_eq] at h
  simp only [goIsSpace, decide_eq_false_iff_not]
  omega

lemma natDecCharsAux_append (fuel : Nat) : ∀ n acc,
    natDecCharsAux fuel n acc = natDecCharsAux fuel n [] ++ acc := by
  induction fuel with
  | zero => intro n acc; simp [natDecCharsAux]
  | succ f ih =>
    intro n acc
    by_cases hn : n = 0
    · simp [natDecCharsAux, hn]
    · simp only [natDecCharsAux, if_neg hn]
      rw [ih (n / 10) (Char.ofNat (48 + n % 10) :: acc),
        ih (n / 10) [Char.ofNat (48 + n % 10)]]
      simp

lemma toNat_ofNat_digit {d : Nat} (h : d < 10) : (Char.ofNat (48 + d)).toNat = 48 + d := by
  interval_cases d <;> decide

lemma natDecCharsAux_digits (fuel : Nat) : ∀ n acc,
    (∀ c ∈ acc, isDigitC c = true) →
    ∀ c ∈ natDecCharsAux fuel n acc, isDigitC c = true := by
  induction fuel with
  | zero =>
    intro n acc hacc
    simpa [natDecCharsAux] using hacc
  | succ f ih =>
    intro n acc hacc
    by_cases hn : n = 0
    · simpa [natDecCharsAux, hn] using hacc
    · simp only [natDecCharsAux, if_neg hn]
      refine ih (n / 10) _ ?_
      intro c hc
      rcases List.mem_cons.mp hc with rfl | hc
      · have hd : n % 10 < 10 := Nat.mod_lt _ (by norm_num)
        simp only [isDigitC, decide_eq_true_eq, toNat_ofNat_digit hd]
        omega
      · exact hacc c hc

lemma natDecChars_digits (n : Nat) : ∀ c ∈ natDecChars n, isDigitC c = true := by
  unfold natDecChars
  by_cases hn : n = 0
  · intro c hc
    rw [if_pos hn] at hc
    simp at hc
    subst hc
    decide
  · rw [if_neg hn]
    exact natDecCharsAux_digits (n + 1) n [] (by simp)

lemma natDecChars_ne_nil (n : Nat) : natDecChars n ≠ [] := by
  unfold natDecChars
  by_cases hn : n = 0
  · simp [hn]
  · rw [if_neg hn]
    rw [show natDecCharsAux (n + 1) n [] =
      natDecCharsAux n (n / 10) [Char.ofNat (48 + n % 10)] from by
        simp [natDecCharsAux, hn]]
    rw [natDecCharsAux_append]
    simp

lemma foldl_digits (a : Nat) (l : List Char) :
    List.foldl (fun x c => 10 * x + (c.toNat - 48)) a l =
      a * 10 ^ l.length + digitsToNat l := by
  induction l generalizing a with
  | nil => simp [digitsToNat]
  | cons c t ih =>
    have h1 : digitsToNat (c :: t) = (c.toNat - 48) * 10 ^ t.length + digitsToNat t := by
      simp only [digitsToNat, List.foldl_cons]
      rw [show 10 * 0 + (c.toNat - 48) = c.toNat - 48 by omega]
      exact ih (c.toNat - 48)
    rw [List.foldl_cons, ih (10 * a + (c.toNat - 48)), h1, List.length_cons]
    ring

lemma digitsToNat_natDecCharsAux : ∀ fuel n acc, n < 10 ^ fuel →
    digitsToNat (natDecCharsAux fuel n acc) = n * 10 ^ acc.length + digitsToNat acc := by
  intro fuel
  induction fuel with
  | zero =>
    intro n acc h
    have hn : n = 0 := by simpa using h
    subst hn
    simp [natDecCharsAux]
  | succ f ih =>
    intro n acc h
    by_cases hn : n = 0
    · simp [natDecCharsAux, hn]
    · simp only [natDecCharsAux, if_neg hn]
      have hdiv : n / 10 < 10 ^ f := by
        rw [pow_succ] at h
        exact (Nat.div_lt_iff_lt_mul (by norm_num : (0 : Nat) < 10)).mpr h
      rw [ih (n / 10) _ hdiv]
      have hd : n % 10 < 10 := Nat.mod_lt _ (by norm_num)
      have hcons : digitsToNat (Char.ofNat (48 + n % 10) :: acc)
          = (n % 10) * 10 ^ acc.length + digitsToNat acc := by
        simp only [digitsToNat, List.foldl_cons]
        rw [show 10 * 0 + ((Char.ofNat (48 + n % 10)).toNat - 48) = n % 10 from by
          rw [toNat_ofNat_digit hd]; omega]
        exact foldl_digits _ _
      rw [List.length_cons, hcons]
      have hqr : 10 * (n / 10) + n % 10 = n := by omega
      calc n / 10 * 10 ^ (acc.length + 1) + (n % 10 * 10 ^ acc.length + digitsToNat acc)
          = (10 * (n / 10) + n % 10) * 10 ^ acc.length + digitsToNat acc := by ring
        _ = n * 10 ^ acc.length + digitsToNat acc := by rw [hqr]

lemma digitsToNat_natDecChars (n : Nat) : digitsToNat (natDecChars n) = n := by
  unfold natDecChars
  by_cases hn : n = 0
  · subst hn
    rfl
  · rw [if_neg hn]
    have hlt : n < 10 ^ (n + 1) := by
      have h1 := Nat.lt_two_pow n
      have h2 : 2 ^ n ≤ 10 ^ n := Nat.pow_le_pow_left (by norm_num) n
      have h3 : 10 ^ n ≤ 10 ^ (n + 1) := Nat.pow_le_pow_right (by norm_num) (Nat.le_succ n)
      omega
    rw [digitsToNat_natDecCharsAux (n + 1) n [] hlt]
    simp [digitsToNat]

lemma goAtoi_natDecChars {m : Int} (h0 : 0 ≤ m) (h1 : m ≤ (maxInt64 : Int)) :
    goAtoi (natDecChars m.toNat) = m := by
  unfold goAtoi
  rw [digitsToNat_natDecChars]
  have hle : m.toNat ≤ maxInt64 := by
    unfold maxInt64 at h1 ⊢
    omega
  rw [min_eq_left hle]
  simpa using Int.toNat_of_nonneg h0

/-- Claim C5: `Version.Compare` implements the documented ordering: it only
takes the values -1, 0, 1; it returns -1 exactly on the lexicographic key
order (numeric on (major, minor, patch), then empty pre-release strictly
above non-empty, then lexicographic string comparison of two non-empty
pre-releases) and 0 exactly on field equality; and in particular
`Parse("1.0.0").Compare(Parse("1.0.0-beta.1")) > 0` and
`Parse("1.0.0-alpha").Compare(Parse("1.0.0-beta")) < 0`. -/
theorem version_compare_ordering :
    (∀ a b : Version,
      Version.compare a b = -1 ∨ Version.compare a b = 0 ∨ Version.compare a b = 1) ∧
    (∀ a b : Version, Version.compare a b = -1 ↔ ltKey a b) ∧
    (∀ a b : Version, Version.compare a b = 0 ↔
      (a.major = b.major ∧ a.minor = b.minor ∧ a.patch = b.patch ∧ a.pre = b.pre)) ∧
    (parseVersion ("1.0.0") = some ⟨1, 0, 0, ""⟩ ∧
      parseVersion ("1.0.0-beta.1") = some ⟨1, 0, 0, "beta.1"⟩ ∧
      Version.compare ⟨1, 0, 0, ""⟩ ⟨1, 0, 0, "beta.1"⟩ > 0) ∧
    (parseVersion ("1.0.0-alpha") = some ⟨1, 0, 0, "alpha"⟩ ∧
      parseVersion ("1.0.0-beta") = some ⟨1, 0, 0, "beta"⟩ ∧
      Version.compare ⟨1, 0, 0, "alpha"⟩ ⟨1, 0, 0, "beta"⟩ < 0) :=
  ⟨compare_vals, compare_eq_neg_one_iff, compare_eq_zero_iff,
   ⟨by decide, by decide, by decide⟩, ⟨by decide, by decide, by decide⟩⟩

lemma goAtoi_bounds (l : List Char) : 0 ≤ goAtoi l ∧ goAtoi l ≤ (maxInt64 : Int) := by
  unfold goAtoi
  constructor
  · exact Int.ofNat_nonneg _
  · exact Int.ofNat_le.mpr (min_le_right _ _)

lemma parseVersionList_inv {t : List Char} {v : Version} (h : parseVersionList t = some v) :
    (0 ≤ v.major ∧ v.major ≤ (maxInt64 : Int)) ∧
    (0 ≤ v.minor ∧ v.minor ≤ (maxInt64 : Int)) ∧
    (0 ≤ v.patch ∧ v.patch ≤ (maxInt64 : Int)) ∧
    (v.pre = "" ∨ (v.pre.data ≠ [] ∧ (∀ c ∈ v.pre.data, c ≠ '\n') ∧ v.pre.data <:+ t)) := by
  have ht1 : (if t.head? = some 'v' then t.tail else t) <:+ t := by
    split
    · exact List.tail_suffix t
    · exact List.suffix_refl t
  simp only [parseVersionList] at h
  generalize hgen : (if t.head? = some 'v' then t.tail else t) = t1 at h
  replace ht1 : t1 <:+ t := hgen ▸ ht1
  split_ifs at h with h1 h2 h3 h4 h5 h6 h7
  · obtain rfl := Option.some.inj h
    exact ⟨goAtoi_bounds _, goAtoi_bounds _, goAtoi_bounds _, Or.inl rfl⟩
  · obtain rfl := Option.some.inj h
    refine ⟨goAtoi_bounds _, goAtoi_bounds _, goAtoi_bounds _, Or.inr ⟨h7.2.1, ?_, ?_⟩⟩
    · simpa using h7.2.2
    · refine List.IsSuffix.trans ?_ ht1
      refine ((List.tail_suffix _).trans (List.dropWhile_suffix _)).trans ?_
      refine ((List.tail_suffix _).trans (List.dropWhile_suffix _)).trans ?_
      exact (List.tail_suffix _).trans (List.dropWhile_suffix _)

lemma parseVersion_inv {s : String} {v : Version} (h : parseVersion s = some v) :
    (0 ≤ v.major ∧ v.major ≤ (maxInt64 : Int)) ∧
    (0 ≤ v.minor ∧ v.minor ≤ (maxInt64 : Int)) ∧
    (0 ≤ v.patch ∧ v.patch ≤ (maxInt64 : Int)) ∧
    (v.pre = "" ∨ (v.pre.data ≠ [] ∧ (∀ c ∈ v.pre.data, c ≠ '\n') ∧
      (∀ c, v.pre.data.getLast? = some c → goIsSpace c = false))) := by
  obtain ⟨hM, hm, hp, hpre⟩ := parseVersionList_inv (t := goTrimSpace s.data) h
  refine ⟨hM, hm, hp, ?_⟩
  rcases hpre with hpre | ⟨hne, hnl, hsuf⟩
  · exact Or.inl hpre
  · refine Or.inr ⟨hne, hnl, ?_⟩
    intro c hc
    refine goTrimSpace_getLast? s.data c ?_
    rw [getLast?_of_suffix hsuf hne]
    exact hc

lemma isDigitC_ne_v {c : Char} (h : isDigitC c = true) : ¬(c = 'v') := by
  intro hc
  subst hc
  exact absurd h (by decide)

lemma parseVersionList_noPre (D1 D2 D3 : List Char)
    (h1 : D1 ≠ []) (h2 : D2 ≠ []) (h3 : D3 ≠ [])
    (a1 : ∀ c ∈ D1, isDigitC c = true) (a2 : ∀ c ∈ D2, isDigitC c = true)
    (a3 : ∀ c ∈ D3, isDigitC c = true) :
    parseVersionList (D1 ++ '.' :: (D2 ++ '.' :: D3)) =
      some ⟨goAtoi D1, goAtoi D2, goAtoi D3, ""⟩ := by
  have hv : ¬((D1 ++ '.' :: (D2 ++ '.' :: D3)).head? = some 'v') := by
    cases D1 with
    | nil => exact absurd rfl h1
    | cons c0 tl =>
      simp only [List.cons_append, List.head?_cons]
      intro hc
      exact isDigitC_ne_v (a1 c0 (List.mem_cons_self _ _)) (by simpa using hc)
  have sp1 := takeWhile_append_cons isDigitC D1 '.' (D2 ++ '.' :: D3) a1 (by decide)
  have sp2 := takeWhile_append_cons isDigitC D2 '.' D3 a2 (by decide)
  have sp3 := takeWhile_all isDigitC D3 a3
  simp only [parseVersionList, if_neg hv]
  rw [sp1.1, sp1.2, if_neg h1]
  simp only [List.head?_cons, List.tail_cons, if_pos rfl]
  rw [sp2.1, sp2.2, if_neg h2]
  simp only [List.head?_cons, List.tail_cons, if_pos rfl]
  rw [sp3.1, sp3.2, if_neg h3]
  simp

lemma parseVersionList_pre (D1 D2 D3 R : List Char)
    (h1 : D1 ≠ []) (h2 : D2 ≠ []) (h3 : D3 ≠ []) (hR : R ≠ [])
    (hnl : ∀ c ∈ R, c ≠ '\n')
    (a1 : ∀ c ∈ D1, isDigitC c = true) (a2 : ∀ c ∈ D2, isDigitC c = true)
    (a3 : ∀ c ∈ D3, isDigitC c = true) :
    parseVersionList (D1 ++ '.' :: (D2 ++ '.' :: (D3 ++ '-' :: R))) =
      some ⟨goAtoi D1, goAtoi D2, goAtoi D3, String.mk R⟩ := by
  have hv : ¬((D1 ++ '.' :: (D2 ++ '.' :: (D3 ++ '-' :: R))).head? = some 'v') := by
    cases D1 with
    | nil => exact absurd rfl h1
    | cons c0 tl =>
      simp only [List.cons_append, List.head?_cons]
      intro hc
      exact isDigitC_ne_v (a1 c0 (List.mem_cons_self _ _)) (by simpa using hc)
  have sp1 := takeWhile_append_cons isDigitC D1 '.' (D2 ++ '.' :: (D3 ++ '-' :: R)) a1
    (by decide)
  have sp2 := takeWhile_append_cons isDigitC D2 '.' (D3 ++ '-' :: R) a2 (by decide)
  have sp3 := takeWhile_append_cons isDigitC D3 '-' R a3 (by decide)
  simp only [parseVersionList, if_neg hv]
  rw [sp1.1, sp1.2, if_neg h1]
  simp only [List.head?_cons, List.tail_cons, if_pos rfl]
  rw [sp2.1, sp2.2, if_neg h2]
  simp only [List.head?_cons, List.tail_cons, if_pos rfl]
  rw [sp3.1, sp3.2, if_neg h3]
  have hguard : ('-' :: R).head? = some '-' ∧ ('-' :: R).tail ≠ [] ∧
      (('-' :: R).tail.all fun c => decide (c ≠ '\n')) = true := by
    refine ⟨rfl, by simpa using hR, ?_⟩
    simp only [List.tail_cons, List.all_eq_true, decide_eq_true_eq]
    exact hnl
  rw [if_neg (show ¬('-' :: R = []) from List.cons_ne_nil _ _), if_pos hguard]
  simp

/-- Claim C4: parse/print round trip: for every string accepted by
`ParseVersion` yielding version `v`, `ParseVersion(v.String())` succeeds
and returns a `Version` with the same major, minor, patch and pre
fields. -/
theorem parseVersion_string_roundtrip :
    ∀ s v, parseVersion s = some v → parseVersion (Version.vstring v) = some v := by
  intro s v h
  obtain ⟨⟨hM0, hM1⟩, ⟨hm0, hm1⟩, ⟨hp0, hp1⟩, hpre⟩ := parseVersion_inv h
  have eM : intDecChars v.major = natDecChars v.major.toNat := by
    unfold intDecChars
    rw [if_neg (by omega)]
  have em : intDecChars v.minor = natDecChars v.minor.toNat := by
    unfold intDecChars
    rw [if_neg (by omega)]
  have ep : intDecChars v.patch = natDecChars v.patch.toNat := by
    unfold intDecChars
    rw [if_neg (by omega)]
  have hMv := goAtoi_natDecChars hM0 hM1
  have hmv := goAtoi_natDecChars hm0 hm1
  have hpv := goAtoi_natDecChars hp0 hp1
  have hD1 := natDecChars_ne_nil v.major.toNat
  have hD2 := natDecChars_ne_nil v.minor.toNat
  have hD3 := natDecChars_ne_nil v.patch.toNat
  have hA1 := natDecChars_digits v.major.toNat
  have hA2 := natDecChars_digits v.minor.toNat
  have hA3 := natDecChars_digits v.patch.toNat
  have headfact : ∀ (tl : List Char) c,
      (natDecChars v.major.toNat ++ tl).head? = some c → goIsSpace c = false := by
    intro tl c hc
    cases hD : natDecChars v.major.toNat with
    | nil => exact absurd hD hD1
    | cons c0 t0 =>
      rw [hD] at hc
      simp only [List.cons_append, List.head?_cons] at hc
      obtain rfl := Option.some.inj hc
      exact isDigitC_not_space (hA1 c0 (by rw [hD]; exact List.mem_cons_self _ _))
  by_cases hp : v.pre = ""
  · unfold parseVersion Version.vstring
    rw [if_neg (fun hc => hc hp)]
    show parseVersionList (goTrimSpace (intDecChars v.major ++ '.' ::
      (intDecChars v.minor ++ '.' :: intDecChars v.patch))) = some v
    rw [eM, em, ep]
    have hsuf3 : natDecChars v.patch.toNat <:+ (natDecChars v.major.toNat ++ '.' ::
        (natDecChars v.minor.toNat ++ '.' :: natDecChars v.patch.toNat)) :=
      ⟨natDecChars v.major.toNat ++ '.' :: (natDecChars v.minor.toNat ++ ['.']), by simp⟩
    rw [goTrimSpace_eq_self (headfact _) ?hlast]
    case hlast =>
      intro c hc
      rw [getLast?_of_suffix hsuf3 hD3] at hc
      exact isDigitC_not_space (hA3 c (List.mem_of_mem_getLast? hc))
    rw [parseVersionList_noPre _ _ _ hD1 hD2 hD3 hA1 hA2 hA3, hMv, hmv, hpv, ← hp]
  · unfold parseVersion Version.vstring
    rw [if_pos hp]
    rcases hpre with hpre | ⟨hne, hnl, hlastpre⟩
    · exact absurd hpre hp
    show parseVersionList (goTrimSpace (intDecChars v.major ++ '.' ::
      (intDecChars v.minor ++ '.' :: (intDecChars v.patch ++ '-' :: v.pre.data)))) = some v
    rw [eM, em, ep]
    have hsufR : v.pre.data <:+ (natDecChars v.major.toNat ++ '.' ::
        (natDecChars v.minor.toNat ++ '.' :: (natDecChars v.patch.toNat ++
          '-' :: v.pre.data))) :=
      ⟨natDecChars v.major.toNat ++ '.' :: (natDecChars v.minor.toNat ++ '.' ::
        (natDecChars v.patch.toNat ++ ['-'])), by simp⟩
    rw [goTrimSpace_eq_self (headfact _) ?hlast2]
    case hlast2 =>
      intro c hc
      rw [getLast?_of_suffix hsufR hne] at hc
      exact hlastpre c hc
    rw [parseVersionList_pre _ _ _ _ hD1 hD2 hD3 hne hnl hA1 hA2 hA3, hMv, hmv, hpv]

/-- Witness for C4 at the accepted string "v1.2.3-rc.1". -/
theorem parseVersion_string_roundtrip_witness :
    parseVersion (Version.vstring ⟨1, 2, 3, "rc.1"⟩) = some ⟨1, 2, 3, "rc.1"⟩ :=
  parseVersion_string_roundtrip ("v1.2.3-rc.1") ⟨1, 2, 3, "rc.1"⟩ (by decide)

lemma map_id_of_mem {α : Type} (f : α → α) (l : List α) (h : ∀ x ∈ l, f x = x) :
    l.map f = l := by
  induction l with
  | nil => rfl
  | cons a t ih =>
    rw [List.map_cons, h a (List.mem_cons_self _ _),
      ih (fun x hx => h x (List.mem_cons_of_mem _ hx))]

lemma hexDigit_range {n : Nat} (h : n < 16) :
    (48 ≤ (hexDigit n).toNat ∧ (hexDigit n).toNat ≤ 57) ∨
      (97 ≤ (hexDigit n).toNat ∧ (hexDigit n).toNat ≤ 102) := by
  interval_cases n <;> decide

lemma hexEncode_chars (bytes : List Nat) :
    ∀ c ∈ (hexEncode bytes).data,
      (48 ≤ c.toNat ∧ c.toNat ≤ 57) ∨ (97 ≤ c.toNat ∧ c.toNat ≤ 102) := by
  show ∀ c ∈ bytes.foldr
    (fun b acc => hexDigit (b / 16 % 16) :: hexDigit (b % 16) :: acc) [], _
  induction bytes with
  | nil => simp
  | cons b t ih =>
    intro c hc
    simp only [List.foldr_cons] at hc
    rcases List.mem_cons.mp hc with rfl | hc
    · exact hexDigit_range (Nat.mod_lt _ (by norm_num))
    rcases List.mem_cons.mp hc with rfl | hc
    · exact hexDigit_range (Nat.mod_lt _ (by norm_num))
    · exact ih c hc

lemma goToLowerAscii_hex (bytes : List Nat) :
    goToLowerAscii (hexEncode bytes) = hexEncode bytes := by
  unfold goToLowerAscii
  have hm := map_id_of_mem
    (fun c : Char => if 65 ≤ c.toNat ∧ c.toNat ≤ 90 then Char.ofNat (c.toNat + 32) else c)
    (hexEncode bytes).data ?_
  · rw [hm]
  · intro c hc
    rcases hexEncode_chars bytes c hc with ⟨h1, h2⟩ | ⟨h1, h2⟩ <;>
      exact if_neg (by omega)

lemma goTrimSpaceString_hex (bytes : List Nat) :
    goTrimSpaceString (hexEncode bytes) = hexEncode bytes := by
  unfold goTrimSpaceString
  have hfix : goTrimSpace (hexEncode bytes).data = (hexEncode bytes).data := by
    refine goTrimSpace_eq_self ?_ ?_
    · intro c hc
      rcases hexEncode_chars bytes c (List.mem_of_mem_head? (hc ▸ rfl)) with
        ⟨h1, h2⟩ | ⟨h1, h2⟩ <;>
        · simp only [goIsSpace, decide_eq_false_iff_not]
          omega
    · intro c hc
      rcases hexEncode_chars bytes c (List.mem_of_mem_getLast? hc) with
        ⟨h1, h2⟩ | ⟨h1, h2⟩ <;>
        · simp only [goIsSpace, decide_eq_false_iff_not]
          omega
  rw [hfix]

/-- Claim C6: for a readable file with the given content bytes,
`VerifyChecksum` succeeds exactly when the lowercase SHA-256 hex digest of
the full content equals the expected string compared case-insensitively
after trimming surrounding whitespace; it fails with `ChecksumMismatch`
(carrying the two normalised hex strings) exactly otherwise; and
`Verify(file, Calculate(content))` always succeeds. -/
theorem verifyChecksum_correct :
    ∀ (content : List Nat) (expected : String),
      (verifyChecksumBytes content expected = Except.ok () ↔
        goToLowerAscii (goTrimSpaceString expected) = calculateChecksumBytes content) ∧
      verifyChecksumBytes content (calculateChecksumBytes content) = Except.ok () ∧
      (verifyChecksumBytes content expected =
          Except.error (UpdateError.checksumMismatch
            (goToLowerAscii (goTrimSpaceString expected))
            (calculateChecksumBytes content)) ↔
        ¬goToLowerAscii (goTrimSpaceString expected) = calculateChecksumBytes content) := by
  intro content expected
  have hfix : goToLowerAscii (calculateChecksumBytes content)
      = calculateChecksumBytes content := goToLowerAscii_hex _
  refine ⟨?_, ?_, ?_⟩
  · simp only [verifyChecksumBytes]
    rw [hfix]
    by_cases heq : calculateChecksumBytes content = goToLowerAscii (goTrimSpaceString expected)
    · rw [if_pos heq]
      exact iff_of_true rfl heq.symm
    · rw [if_neg heq]
      exact iff_of_false (by simp) (fun hc => heq hc.symm)
  · simp only [verifyChecksumBytes]
    rw [hfix]
    unfold calculateChecksumBytes
    rw [goTrimSpaceString_hex, goToLowerAscii_hex, if_pos rfl]
  · simp only [verifyChecksumBytes]
    rw [hfix]
    by_cases heq : calculateChecksumBytes content = goToLowerAscii (goTrimSpaceString expected)
    · rw [if_pos heq]
      exact iff_of_false (by simp) (fun hc => hc heq.symm)
    · rw [if_neg heq]
      exact iff_of_true rfl (fun hc => heq hc.symm)

/-- Counterexample to claim C8 as stated: with an earlier suffix-matching
entry and a later exactly-matching entry, `FindChecksum` returns the
earlier (suffix) entry's checksum, not the exact match's. -/
theorem findChecksum_counterexample :
    findChecksum [(⟨"c1", "sub/ghex.tar.gz"⟩ : ChecksumEntry), ⟨"c2", "ghex.tar.gz"⟩]
        ("ghex.tar.gz") = ("c1", true) ∧
    (⟨"c2", "ghex.tar.gz"⟩ : ChecksumEntry) ∈
      [(⟨"c1", "sub/ghex.tar.gz"⟩ : ChecksumEntry), ⟨"c2", "ghex.tar.gz"⟩] ∧
    ("c1" : String) ≠ "c2" := by
  refine ⟨by decide, by simp, by decide⟩

/-- C8 amended: `FindChecksum` returns the checksum of the first entry in
list order whose filename matches the query exactly or ends in
`"/" + query` — an exact match is not preferred over an earlier suffix
match — and `found = false` exactly when no entry matches either way. -/
theorem findChecksum_first_match :
    ∀ (entries : List ChecksumEntry) (filename : String),
      findChecksum entries filename =
        ((entries.find? fun e => decide (e.filename = filename ∨
            goHasSuffix e.filename ("/" ++ filename) = true)).elim
          ("", false) fun e => (e.checksum, true)) ∧
      ((findChecksum entries filename).2 = false ↔
        ∀ e ∈ entries, ¬(e.filename = filename ∨
          goHasSuffix e.filename ("/" ++ filename) = true)) := by
  intro entries filename
  induction entries with
  | nil => simp [findChecksum]
  | cons e rest ih =>
    by_cases he : e.filename = filename ∨ goHasSuffix e.filename ("/" ++ filename) = true
    · constructor
      · rw [List.find?_cons_of_pos _ (by simpa using he)]
        simp [findChecksum, if_pos he]
      · simp only [findChecksum, if_pos he]
        constructor
        · intro hfalse
          exact absurd hfalse (by simp)
        · intro hall
          exact absurd he (hall e (List.mem_cons_self _ _))
    · constructor
      · rw [List.find?_cons_of_neg _ (by simpa using he)]
        rw [show findChecksum (e :: rest) filename = findChecksum rest filename from by
          simp [findChecksum, if_neg he]]
        exact ih.1
      · rw [show findChecksum (e :: rest) filename = findChecksum rest filename from by
          simp [findChecksum, if_neg he]]
        rw [ih.2]
        constructor
        · intro hall c hc
          rcases List.mem_cons.mp hc with rfl | hc
          · exact he
          · exact hall c hc
        · intro hall c hc
          exact hall c (List.mem_cons_of_mem _ hc)

/-- Counterexample to claim C10 as stated: on a major component of 22
nines, `ParseVersion` succeeds but the component is the clamped
`MaxInt64`, not 0. -/
theorem parseVersion_overflow_counterexample :
    parseVersion ("9999999999999999999999.0.0") =
      some ⟨9223372036854775807, 0, 0, ""⟩ ∧
    (9223372036854775807 : Int) ≠ 0 :=
  ⟨by decide, by decide⟩

/-- C10 amended: `ParseVersion` discards `strconv.Atoi` errors, so on any
input matching the version pattern it succeeds, with each numeric
component clamped to `MaxInt64` (the value `Atoi` returns together with
`ErrRange` on out-of-range input); an overflowing component is therefore
9223372036854775807, not 0. -/
theorem parseVersion_overflow_clamped :
    ∀ d1 d2 d3 : List Char, d1 ≠ [] → d2 ≠ [] → d3 ≠ [] →
    (∀ c ∈ d1, isDigitC c = true) → (∀ c ∈ d2, isDigitC c = true) →
    (∀ c ∈ d3, isDigitC c = true) →
    parseVersion (String.mk (d1 ++ '.' :: (d2 ++ '.' :: d3))) =
      some ⟨goAtoi d1, goAtoi d2, goAtoi d3, ""⟩ ∧
    (maxInt64 < digitsToNat d1 → goAtoi d1 = Int.ofNat maxInt64) := by
  intro d1 d2 d3 h1 h2 h3 a1 a2 a3
  constructor
  · unfold parseVersion
    show parseVersionList (goTrimSpace (d1 ++ '.' :: (d2 ++ '.' :: d3))) =
      some ⟨goAtoi d1, goAtoi d2, goAtoi d3, ""⟩
    have hsuf3 : d3 <:+ (d1 ++ '.' :: (d2 ++ '.' :: d3)) :=
      ⟨d1 ++ '.' :: (d2 ++ ['.']), by simp⟩
    rw [goTrimSpace_eq_self ?hhead ?hlast]
    case hhead =>
      intro c hc
      cases hd : d1 with
      | nil => exact absurd hd h1
      | cons c0 t0 =>
        rw [hd] at hc
        simp only [List.cons_append, List.head?_cons] at hc
        obtain rfl := Option.some.inj hc
        exact isDigitC_not_space (a1 c0 (by rw [hd]; exact List.mem_cons_self _ _))
    case hlast =>
      intro c hc
      rw [getLast?_of_suffix hsuf3 h3] at hc
      exact isDigitC_not_space (a3 c (List.mem_of_mem_getLast? hc))
    exact parseVersionList_noPre _ _ _ h1 h2 h3 a1 a2 a3
  · intro hover
    unfold goAtoi
    rw [min_eq_right (le_of_lt hover)]

/-- Witness for the amended C10 at the concrete overflowing input
9999999999999999999999.0.0. -/
theorem parseVersion_overflow_clamped_witness :
    (parseVersion (String.mk (("9999999999999999999999").data ++ '.' ::
        (("0").data ++ '.' :: ("0").data))) =
      some ⟨goAtoi ("9999999999999999999999").data, goAtoi ("0").data,
        goAtoi ("0").data, ""⟩ ∧
    (maxInt64 < digitsToNat ("9999999999999999999999").data →
      goAtoi ("9999999999999999999999").data = Int.ofNat maxInt64)) :=
  parseVersion_overflow_clamped (("9999999999999999999999").data) (("0").data)
    (("0").data) (by decide) (by decide) (by decide) (by decide) (by decide) (by decide)

/-- Claim C7: `CheckForUpdate` reports an update exactly when the parsed
remote tag is strictly newer (in the `ltKey` order decided by
`Version.Compare`) than the parsed current version; a version that fails
to parse surfaces as an error with `hasUpdate = false`, never as a silent
"no update"; and with current version 1.0.0 and remote tag v1.0.0 it
returns `hasUpdate = false` with no error. -/
theorem checkForUpdate_correct :
    (∀ (rel : ReleaseInfo) (cur : String) (cv lv : Version),
      parseVersion cur = some cv → parseVersion rel.tagName = some lv →
      checkForUpdate (Except.ok rel) cur = (some rel, Version.isNewerThan lv cv, none) ∧
      (Version.isNewerThan lv cv = true ↔ ltKey cv lv)) ∧
    (∀ (rel : ReleaseInfo) (cur : String),
      (parseVersion cur = none ∨ parseVersion rel.tagName = none) →
      (checkForUpdate (Except.ok rel) cur).2.2 ≠ none ∧
      (checkForUpdate (Except.ok rel) cur).2.1 = false) ∧
    (∀ rel : ReleaseInfo, rel.tagName = "v1.0.0" →
      checkForUpdate (Except.ok rel) ("1.0.0") = (some rel, false, none)) := by
  refine ⟨?_, ?_, ?_⟩
  · intro rel cur cv lv hcv hlv
    constructor
    · simp only [checkForUpdate, hcv, hlv]
    · exact isNewerThan_iff lv cv
  · intro rel cur h
    rcases h with h | h
    · simp [checkForUpdate, h]
    · cases hc : parseVersion cur with
      | none => simp [checkForUpdate, hc]
      | some cv => simp [checkForUpdate, hc, h]
  · intro rel htag
    simp only [checkForUpdate,
      show parseVersion ("1.0.0") = some ⟨1, 0, 0, ""⟩ from by decide, htag,
      show parseVersion ("v1.0.0") = some ⟨1, 0, 0, ""⟩ from by decide,
      show Version.isNewerThan ⟨1, 0, 0, ""⟩ ⟨1, 0, 0, ""⟩ = false from by decide]

/-- Witness for C7 at a release with tag v1.1.0 and a release with tag
v1.0.0, against current version 1.0.0. -/
theorem checkForUpdate_correct_witness :
    (checkForUpdate (Except.ok (⟨"", "v1.1.0", "", "", 0, "", []⟩ : ReleaseInfo)) ("1.0.0") =
      (some ⟨"", "v1.1.0", "", "", 0, "", []⟩, Version.isNewerThan ⟨1, 1, 0, ""⟩ ⟨1, 0, 0, ""⟩,
        none) ∧
      (Version.isNewerThan ⟨1, 1, 0, ""⟩ ⟨1, 0, 0, ""⟩ = true ↔
        ltKey ⟨1, 0, 0, ""⟩ ⟨1, 1, 0, ""⟩)) ∧
    checkForUpdate (Except.ok (⟨"", "v1.0.0", "", "", 0, "", []⟩ : ReleaseInfo)) ("1.0.0") =
      (some ⟨"", "v1.0.0", "", "", 0, "", []⟩, false, none) :=
  ⟨checkForUpdate_correct.1 ⟨"", "v1.1.0", "", "", 0, "", []⟩ ("1.0.0")
      ⟨1, 0, 0, ""⟩ ⟨1, 1, 0, ""⟩ (by decide) (by decide),
   checkForUpdate_correct.2.2 ⟨"", "v1.0.0", "", "", 0, "", []⟩ rfl⟩

/-- Claim C9: the checksum block of `Update` is best-effort: when
downloading the manifest fails, or parsing it fails, or the parsed
manifest has no entry for the selected asset's name, verification is
silently skipped and the whole update behaves exactly as if no manifest
existed; only a found entry can abort the update. -/
theorem update_checksum_best_effort :
    ∀ (env : UpdateEnv) (release : ReleaseInfo) (st : FsState) (asset : Asset),
      selectAssetForPlatform release env.osName env.arch = Except.ok asset →
      ((∃ e, env.checksums = Except.error e) ∨
       (∃ content e, env.checksums = Except.ok content ∧
          parseChecksumFile content = Except.error e) ∨
       (∃ content entries, env.checksums = Except.ok content ∧
          parseChecksumFile content = Except.ok entries ∧
          (findChecksum entries asset.name).2 = false)) →
      (∀ bytes, checksumStep env asset.name bytes = Except.ok ()) ∧
      update env release st = update { env with checksums := Except.ok ("") } release st := by
  intro env release st asset hsel hcase
  have hstep : ∀ bytes, checksumStep env asset.name bytes = Except.ok () := by
    intro bytes
    rcases hcase with ⟨e, he⟩ | ⟨content, e, hok, hparse⟩ | ⟨content, entries, hok, hparse, hfind⟩
    · simp [checksumStep, he]
    · by_cases hc : content = ""
      · simp [checksumStep, hok, hc]
      · simp [checksumStep, hok, hc, hparse]
    · by_cases hc : content = ""
      · simp [checksumStep, hok, hc]
      · obtain ⟨x, hx⟩ : ∃ x, findChecksum entries asset.name = (x, false) := by
          rcases hfc : findChecksum entries asset.name with ⟨x, b⟩
          cases b
          · exact ⟨x, rfl⟩
          · rw [hfc] at hfind
            exact absurd hfind (by simp)
        simp [checksumStep, hok, hc, hparse, hx]
  have hcsok : ∀ (env' : UpdateEnv) (an : String) (b : List Nat),
      env'.checksums = Except.ok ("") → checksumStep env' an b = Except.ok () := by
    intro env' an b h
    simp [checksumStep, h]
  refine ⟨hstep, ?_⟩
  by_cases hw : env.writePermOk = false
  · simp [update, hw]
  · cases hdl : env.download with
    | error e => simp [update, hw, hsel, hdl]
    | ok bytes => simp [update, hw, hsel, hdl, hstep bytes, hcsok]

/-- Witness for C9 with a failing manifest download. -/
theorem update_checksum_best_effort_witness :
    (∀ bytes, checksumStep
      { osName := "linux", arch := "amd64", writePermOk := true, tempDirOk := true,
        download := Except.ok [], checksums := Except.error UpdateError.networkError,
        extract := fun _ => Except.ok [1], io := ⟨true, true, true, true, true, true, true⟩ }
      ("ghex-linux-amd64.tar.gz") bytes = Except.ok ()) ∧
    update
      { osName := "linux", arch := "amd64", writePermOk := true, tempDirOk := true,
        download := Except.ok [], checksums := Except.error UpdateError.networkError,
        extract := fun _ => Except.ok [1], io := ⟨true, true, true, true, true, true, true⟩ }
      ⟨"", "v1.1.0", "", "", 0, "", [⟨"ghex-linux-amd64.tar.gz", "u", 3, "t"⟩]⟩
      ⟨some [7], none⟩ =
    update
      { osName := "linux", arch := "amd64", writePermOk := true, tempDirOk := true,
        download := Except.ok [], checksums := Except.ok (""),
        extract := fun _ => Except.ok [1], io := ⟨true, true, true, true, true, true, true⟩ }
      ⟨"", "v1.1.0", "", "", 0, "", [⟨"ghex-linux-amd64.tar.gz", "u", 3, "t"⟩]⟩
      ⟨some [7], none⟩ :=
  update_checksum_best_effort
    { osName := "linux", arch := "amd64", writePermOk := true, tempDirOk := true,
      download := Except.ok [], checksums := Except.error UpdateError.networkError,
      extract := fun _ => Except.ok [1], io := ⟨true, true, true, true, true, true, true⟩ }
    ⟨"", "v1.1.0", "", "", 0, "", [⟨"ghex-linux-amd64.tar.gz", "u", 3, "t"⟩]⟩
    ⟨some [7], none⟩
    ⟨"ghex-linux-amd64.tar.gz", "u", 3, "t"⟩
    (by decide)
    (Or.inl ⟨UpdateError.networkError, rfl⟩)

/-- Claim C1: when checksum verification inside `Update` reports a
mismatch, the update aborts before the backup and replace steps: the
returned error is the `ChecksumMismatch`, the on-disk state (in
particular the installed binary's bytes) is unchanged, no binary-manager
operation was attempted, and — when no backup existed before the call —
`HasBackup()` is still false afterwards. -/
theorem update_checksum_mismatch_aborts :
    ∀ (env : UpdateEnv) (release : ReleaseInfo) (st : FsState) (asset : Asset)
      (bytes : List Nat) (content : String) (entries : List ChecksumEntry)
      (expected e a : String),
      env.writePermOk = true →
      selectAssetForPlatform release env.osName env.arch = Except.ok asset →
      env.tempDirOk = true →
      env.download = Except.ok bytes →
      env.checksums = Except.ok content →
      content ≠ "" →
      parseChecksumFile content = Except.ok entries →
      findChecksum entries asset.name = (expected, true) →
      verifyChecksumBytes bytes expected =
        Except.error (UpdateError.checksumMismatch e a) →
      st.backup = none →
      update env release st =
        (Except.error (UpdateError.checksumMismatch e a), st, []) ∧
      (update env release st).2.1.binary = st.binary ∧
      hasBackup (update env release st).2.1 = false := by
  intro env release st asset bytes content entries expected e a
    hwp hsel htd hdl hck hcne hparse hfind hver hnb
  have hcs : checksumStep env asset.name bytes =
      Except.error (UpdateError.checksumMismatch e a) := by
    simp only [checksumStep, hck, if_neg hcne, hparse, hfind]
    exact hver
  have hupd : update env release st =
      (Except.error (UpdateError.checksumMismatch e a), st, []) := by
    simp [update, hwp, hsel, htd, hdl, hcs]
  refine ⟨hupd, by rw [hupd], ?_⟩
  rw [hupd]
  simp [hasBackup, hnb]

/-- Witness for C1: a release whose manifest names the asset with
checksum deadbeef while the downloaded archive is empty. -/
theorem update_checksum_mismatch_aborts_witness :
    update
      { osName := "linux", arch := "amd64", writePermOk := true, tempDirOk := true,
        download := Except.ok [],
        checksums := Except.ok ("deadbeef  ghex-linux-amd64.tar.gz"),
        extract := fun _ => Except.ok [1], io := ⟨true, true, true, true, true, true, true⟩ }
      ⟨"", "v1.1.0", "", "", 0, "", [⟨"ghex-linux-amd64.tar.gz", "u", 3, "t"⟩]⟩
      ⟨some [7], none⟩ =
      (Except.error (UpdateError.checksumMismatch ("deadbeef")
        ("e3b0c44298fc1c149afbf4c8996fb92427ae41e4649b934ca495991b7852b855")),
       ⟨some [7], none⟩, []) ∧
    (update
      { osName := "linux", arch := "amd64", writePermOk := true, tempDirOk := true,
        download := Except.ok [],
        checksums := Except.ok ("deadbeef  ghex-linux-amd64.tar.gz"),
        extract := fun _ => Except.ok [1], io := ⟨true, true, true, true, true, true, true⟩ }
      ⟨"", "v1.1.0", "", "", 0, "", [⟨"ghex-linux-amd64.tar.gz", "u", 3, "t"⟩]⟩
      ⟨some [7], none⟩).2.1.binary = some [7] ∧
    hasBackup (update
      { osName := "linux", arch := "amd64", writePermOk := true, tempDirOk := true,
        download := Except.ok [],
        checksums := Except.ok ("deadbeef  ghex-linux-amd64.tar.gz"),
        extract := fun _ => Except.ok [1], io := ⟨true, true, true, true, true, true, true⟩ }
      ⟨"", "v1.1.0", "", "", 0, "", [⟨"ghex-linux-amd64.tar.gz", "u", 3, "t"⟩]⟩
      ⟨some [7], none⟩).2.1 = false :=
  update_checksum_mismatch_aborts
    { osName := "linux", arch := "amd64", writePermOk := true, tempDirOk := true,
      download := Except.ok [],
      checksums := Except.ok ("deadbeef  ghex-linux-amd64.tar.gz"),
      extract := fun _ => Except.ok [1], io := ⟨true, true, true, true, true, true, true⟩ }
    ⟨"", "v1.1.0", "", "", 0, "", [⟨"ghex-linux-amd64.tar.gz", "u", 3, "t"⟩]⟩
    ⟨some [7], none⟩
    ⟨"ghex-linux-amd64.tar.gz", "u", 3, "t"⟩
    [] ("deadbeef  ghex-linux-amd64.tar.gz")
    [⟨"deadbeef", "ghex-linux-amd64.tar.gz"⟩]
    ("deadbeef") ("deadbeef")
    ("e3b0c44298fc1c149afbf4c8996fb92427ae41e4649b934ca495991b7852b855")
    rfl (by decide) rfl rfl rfl (by decide) (by decide) (by decide) (by decide) rfl

/-- Counterexample to claim C2 as stated: in a run where `Replace()`
fails and the automatic `Restore()` also fails, `Update` returns exactly
the replace error — the very same caller-visible value as when the
restore succeeds — so the restore error is not made visible to the
caller. -/
theorem update_restore_error_invisible :
    (update
      { osName := "linux", arch := "amd64", writePermOk := true, tempDirOk := true,
        download := Except.ok [], checksums := Except.error UpdateError.networkError,
        extract := fun _ => Except.ok [1],
        io := ⟨true, true, true, false, true, false, true⟩ }
      ⟨"", "v1.1.0", "", "", 0, "", [⟨"ghex-linux-amd64.tar.gz", "u", 3, "t"⟩]⟩
      ⟨some [7], none⟩).1 = Except.error UpdateError.replaceCopyFailed ∧
    (restore ⟨true, true, true, false, true, false, true⟩
      ⟨none, some [7]⟩).1 = Except.error UpdateError.restoreFailed ∧
    (update
      { osName := "linux", arch := "amd64", writePermOk := true, tempDirOk := true,
        download := Except.ok [], checksums := Except.error UpdateError.networkError,
        extract := fun _ => Except.ok [1],
        io := ⟨true, true, true, false, true, false, true⟩ }
      ⟨"", "v1.1.0", "", "", 0, "", [⟨"ghex-linux-amd64.tar.gz", "u", 3, "t"⟩]⟩
      ⟨some [7], none⟩).1 =
    (update
      { osName := "linux", arch := "amd64", writePermOk := true, tempDirOk := true,
        download := Except.ok [], checksums := Except.error UpdateError.networkError,
        extract := fun _ => Except.ok [1],
        io := ⟨true, true, true, false, true, true, true⟩ }
      ⟨"", "v1.1.0", "", "", 0, "", [⟨"ghex-linux-amd64.tar.gz", "u", 3, "t"⟩]⟩
      ⟨some [7], none⟩).1 ∧
    UpdateError.replaceCopyFailed ≠ UpdateError.restoreFailed := by
  refine ⟨by decide, by decide, by decide, by decide⟩

/-- C2 amended: when `Replace()` fails during `Update`, exactly one
automatic `Restore()` is attempted and the original replace error is
returned to the caller regardless of the restore's outcome; the
restore's own error is discarded by `Update` and is not part of what the
caller receives. -/
theorem update_replace_failure_one_restore :
    ∀ (env : UpdateEnv) (release : ReleaseInfo) (st : FsState) (asset : Asset)
      (bytes newBytes b : List Nat) (e : UpdateError) (st2 : FsState),
      env.writePermOk = true →
      selectAssetForPlatform release env.osName env.arch = Except.ok asset →
      env.tempDirOk = true →
      env.download = Except.ok bytes →
      checksumStep env asset.name bytes = Except.ok () →
      env.extract bytes = Except.ok newBytes →
      env.io.mkdirBackupOk = true →
      env.io.copyToBackupOk = true →
      st.binary = some b →
      replaceUnix env.io newBytes { st with backup := some b } = (Except.error e, st2) →
      update env release st =
        (Except.error e, (restore env.io st2).2,
          [BinOp.backupOp, BinOp.replaceOp, BinOp.restoreOp]) ∧
      (update env release st).2.2.count BinOp.restoreOp = 1 := by
  intro env release st asset bytes newBytes b e st2
    hwp hsel htd hdl hcs hext hmk hcp hbin hrepl
  have hbackup : backup env.io st = (Except.ok (), { st with backup := some b }) := by
    simp [backup, hmk, hbin, hcp]
  have hupd : update env release st =
      (Except.error e, (restore env.io st2).2,
        [BinOp.backupOp, BinOp.replaceOp, BinOp.restoreOp]) := by
    simp [update, hwp, hsel, htd, hdl, hcs, hext, hbackup, hrepl]
  refine ⟨hupd, ?_⟩
  rw [hupd]
  rfl

/-- Witness for the amended C2: a replace that fails at the remove step
with a restore that succeeds. -/
theorem update_replace_failure_one_restore_witness :
    (update
      { osName := "linux", arch := "amd64", writePermOk := true, tempDirOk := true,
        download := Except.ok [], checksums := Except.error UpdateError.networkError,
        extract := fun _ => Except.ok [1],
        io := ⟨true, true, false, true, true, true, true⟩ }
      ⟨"", "v1.1.0", "", "", 0, "", [⟨"ghex-linux-amd64.tar.gz", "u", 3, "t"⟩]⟩
      ⟨some [7], none⟩ =
      (Except.error UpdateError.replaceRemoveFailed,
        (restore ⟨true, true, false, true, true, true, true⟩
          ⟨some [7], some [7]⟩).2,
        [BinOp.backupOp, BinOp.replaceOp, BinOp.restoreOp])) ∧
    (update
      { osName := "linux", arch := "amd64", writePermOk := true, tempDirOk := true,
        download := Except.ok [], checksums := Except.error UpdateError.networkError,
        extract := fun _ => Except.ok [1],
        io := ⟨true, true, false, true, true, true, true⟩ }
      ⟨"", "v1.1.0", "", "", 0, "", [⟨"ghex-linux-amd64.tar.gz", "u", 3, "t"⟩]⟩
      ⟨some [7], none⟩).2.2.count BinOp.restoreOp = 1 :=
  update_replace_failure_one_restore
    { osName := "linux", arch := "amd64", writePermOk := true, tempDirOk := true,
      download := Except.ok [], checksums := Except.error UpdateError.networkError,
      extract := fun _ => Except.ok [1],
      io := ⟨true, true, false, true, true, true, true⟩ }
    ⟨"", "v1.1.0", "", "", 0, "", [⟨"ghex-linux-amd64.tar.gz", "u", 3, "t"⟩]⟩
    ⟨some [7], none⟩
    ⟨"ghex-linux-amd64.tar.gz", "u", 3, "t"⟩
    [] [1] [7] UpdateError.replaceRemoveFailed ⟨some [7], some [7]⟩
    rfl (by decide) rfl rfl rfl rfl rfl rfl rfl (by decide)

end Ghex
